import Mathlib

/-!
Verification of the byline-cleaning core of `readabilityrs` (`src/utils.rs`).

Strings are embedded as `List Char` (Rust `&str` is a sequence of Unicode
scalar values).  Rust byte indexing is modelled explicitly: `utf8Len` gives a
scalar's UTF-8 width, `byteLen` a string's byte length, and `takeBytesExact`
models `&text[..idx]`, returning `none` exactly when `idx` is not a character
boundary (the situation in which the Rust slice panics).  Fallible code is
`Option`-valued with `none` standing for a panic.

Character classification (`char::is_whitespace`, `is_alphabetic`,
`is_uppercase`, `to_lowercase`) is modelled by explicit tables: the whitespace
table is the complete Unicode White_Space set; the alphabetic / case tables
cover ASCII, the Latin-1 letters and the Kelvin sign U+212A, which are the
characters this development exercises (all other code points are modelled as
caseless non-letters, matching Rust for every character actually used here).
-/

namespace ReadabilityRs

/-- Shorthand turning a Lean string literal into the `List Char` embedding. -/
def ls (s : String) : List Char := s.data

/-- Complete Unicode White_Space table: models Rust `char::is_whitespace`
and the regex class `\s`. -/
def isWhitespaceChar (c : Char) : Bool :=
  c.toNat == 0x09 || c.toNat == 0x0A || c.toNat == 0x0B || c.toNat == 0x0C ||
  c.toNat == 0x0D || c.toNat == 0x20 || c.toNat == 0x85 || c.toNat == 0xA0 ||
  c.toNat == 0x1680 || (0x2000 ≤ c.toNat && c.toNat ≤ 0x200A) ||
  c.toNat == 0x2028 || c.toNat == 0x2029 || c.toNat == 0x202F ||
  c.toNat == 0x205F || c.toNat == 0x3000

/-- Models Rust `char::is_ascii_digit`. -/
def isAsciiDigit (c : Char) : Bool :=
  0x30 ≤ c.toNat && c.toNat ≤ 0x39

/-- Models Rust `char::is_alphabetic` on ASCII, the Latin-1 letters and the
Kelvin sign U+212A (the characters exercised here); other code points are
modelled as non-alphabetic. -/
def isAlphabeticChar (c : Char) : Bool :=
  (0x41 ≤ c.toNat && c.toNat ≤ 0x5A) || (0x61 ≤ c.toNat && c.toNat ≤ 0x7A) ||
  (0xC0 ≤ c.toNat && c.toNat ≤ 0xFF && c.toNat != 0xD7 && c.toNat != 0xF7) ||
  c.toNat == 0x212A

/-- Models Rust `char::is_uppercase` on the same character range. -/
def isUppercaseChar (c : Char) : Bool :=
  (0x41 ≤ c.toNat && c.toNat ≤ 0x5A) ||
  (0xC0 ≤ c.toNat && c.toNat ≤ 0xDE && c.toNat != 0xD7) ||
  c.toNat == 0x212A

/-- Models Rust `char::to_lowercase` on the same character range: ASCII and
Latin-1 capitals shift by 32, the Kelvin sign U+212A lowers to `k` (losing
two UTF-8 bytes), every other code point maps to itself. -/
def charLower (c : Char) : Char :=
  if 0x41 ≤ c.toNat && c.toNat ≤ 0x5A then Char.ofNat (c.toNat + 32)
  else if 0xC0 ≤ c.toNat && c.toNat ≤ 0xDE && c.toNat != 0xD7 then
    Char.ofNat (c.toNat + 32)
  else if c.toNat == 0x212A then 'k'
  else c

/-- Models Rust `str::to_lowercase` (character by character). -/
def toLowerStr (l : List Char) : List Char := l.map charLower

/-- UTF-8 width in bytes of one Unicode scalar value. -/
def utf8Len (c : Char) : Nat :=
  if c.toNat < 0x80 then 1
  else if c.toNat < 0x800 then 2
  else if c.toNat < 0x10000 then 3
  else 4

/-- UTF-8 byte length of a string: models Rust `str::len`. -/
def byteLen (l : List Char) : Nat := (l.map utf8Len).sum

/-- Models the Rust slice `&text[..idx]` for a byte index `idx`: `none` when
`idx` is past the end or not on a character boundary, the cases in which the
Rust slice panics. -/
def takeBytesExact : List Char → Nat → Option (List Char)
  | _, 0 => some []
  | [], _ + 1 => none
  | c :: rest, n + 1 =>
    if utf8Len c ≤ n + 1 then
      (takeBytesExact rest (n + 1 - utf8Len c)).map (fun l => c :: l)
    else none

/-- `startsWithL l p` is true when `p` is an initial run of `l`:
models Rust `str::starts_with` for string patterns. -/
def startsWithL : List Char → List Char → Bool
  | _, [] => true
  | [], _ :: _ => false
  | a :: as_, b :: bs => a == b && startsWithL as_ bs

/-- Models Rust `str::ends_with` for string patterns. -/
def endsWithL (l p : List Char) : Bool := startsWithL l.reverse p.reverse

/-- Models Rust `str::contains` for string patterns. -/
def containsSub : List Char → List Char → Bool
  | [], n => n.isEmpty
  | c :: t, n => startsWithL (c :: t) n || containsSub t n

/-- Drop a run matched by `p` from the end: models Rust `trim_end_matches`
with a `char` predicate pattern. -/
def trimEndWith (p : Char → Bool) (l : List Char) : List Char :=
  (l.reverse.dropWhile p).reverse

/-- Models Rust `str::trim`. -/
def trimStr (l : List Char) : List Char :=
  trimEndWith isWhitespaceChar (l.dropWhile isWhitespaceChar)

/-- Models Rust `str::trim_start`. -/
def trimStartStr (l : List Char) : List Char := l.dropWhile isWhitespaceChar

/-- Models Rust `str::split_whitespace` (maximal non-whitespace tokens). -/
def splitWsAux : List Char → List Char → List (List Char)
  | [], acc => if acc.isEmpty then [] else [acc.reverse]
  | c :: rest, acc =>
    if isWhitespaceChar c then
      if acc.isEmpty then splitWsAux rest [] else acc.reverse :: splitWsAux rest []
    else splitWsAux rest (c :: acc)

/-- Models Rust `str::split_whitespace`. -/
def splitWhitespace (l : List Char) : List (List Char) := splitWsAux l []

/-- Models Rust `str::split` with a `char` separator (keeps empty pieces,
like Rust's iterator collected to a vector). -/
def splitOnChar (sep : Char) : List Char → List (List Char)
  | [] => [[]]
  | c :: rest =>
    if c == sep then [] :: splitOnChar sep rest
    else
      match splitOnChar sep rest with
      | [] => [[c]]
      | t :: ts => (c :: t) :: ts

/-- Fuel-driven worker for `splitOnSub`; the fuel starts at the list length,
which is enough because every step consumes at least one character. -/
def splitOnSubFuel (needle : List Char) : Nat → List Char → List (List Char)
  | _, [] => [[]]
  | 0, l => [l]
  | fuel + 1, c :: rest =>
    if !needle.isEmpty && startsWithL (c :: rest) needle then
      [] :: splitOnSubFuel needle fuel ((c :: rest).drop needle.length)
    else
      match splitOnSubFuel needle fuel rest with
      | [] => [[c]]
      | t :: ts => (c :: t) :: ts

/-- Models Rust `str::split` with a string separator (leftmost,
non-overlapping). -/
def splitOnSub (needle l : List Char) : List (List Char) :=
  splitOnSubFuel needle l.length l

/-- Byte index (within `l` itself) of the given character position: used to
translate a match position into the byte index Rust's `rfind` returns. -/
def rfindSub (l needle : List Char) : Option Nat :=
  ((List.range (l.length + 1)).filter
    (fun i => startsWithL (l.drop i) needle)).getLast?

/-- Character position of the first occurrence of `needle` in `l`:
models Rust `str::find`. -/
def findSub (l needle : List Char) : Option Nat :=
  ((List.range (l.length + 1)).filter
    (fun i => startsWithL (l.drop i) needle)).head?

/-- Modelled from the spec: `normalize_whitespace` applies the
`REGEXPS.normalize` pattern, which lives in `src/constants.rs` and is not
among the repository files given here; spec section 4.1 says it "collapses
any run of whitespace into one ASCII space", which this definition does
(every maximal whitespace run becomes a single ASCII space). -/
def normalizeWhitespace : List Char → List Char
  | [] => []
  | c :: rest =>
    if isWhitespaceChar c then
      match rest with
      | [] => [' ']
      | c2 :: _ =>
        if isWhitespaceChar c2 then normalizeWhitespace rest
        else ' ' :: normalizeWhitespace rest
    else c :: normalizeWhitespace rest

/-- True when the list is empty or starts with a non-whitespace character. -/
def headNonWs : List Char → Bool
  | [] => true
  | c :: _ => !isWhitespaceChar c

/-- A string is in normal form when every whitespace character in it is an
ASCII space and no two whitespace characters are adjacent. -/
def isNormalForm : List Char → Bool
  | [] => true
  | c :: rest =>
    (if isWhitespaceChar c then c == ' ' && headNonWs rest else true) &&
      isNormalForm rest

theorem normalizeWhitespace_cons_nonWs (c : Char) (rest : List Char)
    (hc : isWhitespaceChar c = false) :
    normalizeWhitespace (c :: rest) = c :: normalizeWhitespace rest := by
  cases rest <;> simp [normalizeWhitespace, hc]

theorem normalizeWhitespace_normalForm (l : List Char) :
    isNormalForm (normalizeWhitespace l) = true := by
  induction l with
  | nil => rfl
  | cons c rest ih =>
    by_cases hc : isWhitespaceChar c = true
    · cases rest with
      | nil =>
        have h1 : normalizeWhitespace [c] = [' '] := by
          simp [normalizeWhitespace, hc]
        rw [h1]; decide
      | cons c2 rest2 =>
        by_cases hc2 : isWhitespaceChar c2 = true
        · have h1 : normalizeWhitespace (c :: c2 :: rest2) =
              normalizeWhitespace (c2 :: rest2) := by
            simp [normalizeWhitespace, hc, hc2]
          rw [h1]; exact ih
        · simp only [Bool.not_eq_true] at hc2
          have h1 : normalizeWhitespace (c :: c2 :: rest2) =
              ' ' :: normalizeWhitespace (c2 :: rest2) := by
            simp [normalizeWhitespace, hc, hc2]
          have h2 : normalizeWhitespace (c2 :: rest2) =
              c2 :: normalizeWhitespace rest2 := by
            simp [normalizeWhitespace, hc2]
          have ih2 : isNormalForm (c2 :: normalizeWhitespace rest2) = true := by
            rw [← h2]; exact ih
          have ih3 : isNormalForm (normalizeWhitespace rest2) = true := by
            simp only [isNormalForm, hc2, Bool.false_eq_true, if_false,
              Bool.true_and] at ih2
            exact ih2
          rw [h1, h2]
          simp only [isNormalForm, headNonWs, hc2]
          simp [ih3, hc2, show isWhitespaceChar ' ' = true from by decide]
    · simp only [Bool.not_eq_true] at hc
      rw [normalizeWhitespace_cons_nonWs c rest hc]
      simp [isNormalForm, hc, ih]

theorem normalizeWhitespace_of_normalForm (l : List Char) :
    isNormalForm l = true → normalizeWhitespace l = l := by
  induction l with
  | nil => intro _; rfl
  | cons c rest ih =>
    intro h
    simp only [isNormalForm, Bool.and_eq_true] at h
    obtain ⟨h1, hrest⟩ := h
    by_cases hc : isWhitespaceChar c = true
    · rw [if_pos hc, Bool.and_eq_true] at h1
      obtain ⟨hsp, hhead⟩ := h1
      have hcsp : c = ' ' := by simpa using hsp
      cases rest with
      | nil => simp [normalizeWhitespace, hc, hcsp]
      | cons c2 rest2 =>
        simp only [headNonWs, Bool.not_eq_true'] at hhead
        have h1 : normalizeWhitespace (c :: c2 :: rest2) =
            ' ' :: normalizeWhitespace (c2 :: rest2) := by
          simp [normalizeWhitespace, hc, hhead]
        rw [h1, ih hrest, hcsp]
    · simp only [Bool.not_eq_true] at hc
      rw [normalizeWhitespace_cons_nonWs c rest hc, ih hrest]

/-- Claim C9: `normalize_whitespace` is idempotent: normalizing an already
normalized string changes nothing. -/
theorem normalize_whitespace_idempotent (t : List Char) :
    normalizeWhitespace (normalizeWhitespace t) = normalizeWhitespace t :=
  normalizeWhitespace_of_normalForm _ (normalizeWhitespace_normalForm t)

/-- The invisible space characters of `SOFT_SPACE_CHARS`. -/
def isSoftSpaceChar (c : Char) : Bool :=
  c.toNat == 0xA0 || c.toNat == 0x200B || c.toNat == 0xFEFF

/-- Embeds `trim_soft_space` (`trim_matches` over `SOFT_SPACE_CHARS`). -/
def trimSoftSpace (l : List Char) : List Char :=
  trimEndWith isSoftSpaceChar (l.dropWhile isSoftSpaceChar)

/-- Embeds `looks_like_social_handle`. -/
def looksLikeSocialHandle (text : List Char) : Bool :=
  if (toLowerStr (trimStr text)).isEmpty then false
  else if startsWithL (toLowerStr (trimStr text)) (ls "@") ||
      containsSub (toLowerStr (trimStr text)) (ls " @") then true
  else if containsSub (toLowerStr (trimStr text)) (ls "twitter.com/") ||
      containsSub (toLowerStr (trimStr text)) (ls "facebook.com/") then true
  else if startsWithL (toLowerStr (trimStr text)) (ls "follow ") &&
      (toLowerStr (trimStr text)).contains '@' then true
  else if containsSub (toLowerStr (trimStr text)) (ls " follow @") then true
  else if containsSub (toLowerStr (trimStr text)) (ls " follow us") &&
      containsSub (toLowerStr (trimStr text)) (ls "twitter") then true
  else if containsSub (toLowerStr (trimStr text)) (ls " follow on") &&
      containsSub (toLowerStr (trimStr text)) (ls "twitter") then true
  else false

/-- The 24-entry `DISQUALIFIERS` vocabulary of `looks_like_author_name`. -/
def DISQUALIFIERS : List (List Char) :=
  [ls "reporter", ls "editor", ls "writer", ls "staff", ls "senior",
   ls "team", ls "desk", ls "anchor", ls "producer", ls "analyst",
   ls "correspondent", ls "contributor", ls "technologist", ls "developer",
   ls "developers", ls "news", ls "press", ls "service", ls "bureau",
   ls "foreign", ls "android", ls "buzzfeed", ls "telegraph", ls "view"]

/-- Embeds `looks_like_author_name`. -/
def looksLikeAuthorName (text : List Char) : Bool :=
  if (trimSoftSpace (trimStr text)).isEmpty ||
      80 < byteLen (trimSoftSpace (trimStr text)) then false
  else if !(trimSoftSpace (trimStr text)).any isWhitespaceChar then false
  else if (trimSoftSpace (trimStr text)).any isAsciiDigit then false
  else if startsWithL (toLowerStr (trimSoftSpace (trimStr text))) (ls "follow ") ||
      (toLowerStr (trimSoftSpace (trimStr text))).contains '@' then false
  else if ((trimSoftSpace (trimStr text)).filter isAlphabeticChar).length < 3 then
    false
  else
    !(splitWhitespace (toLowerStr (trimSoftSpace (trimStr text)))).any
      (fun token => DISQUALIFIERS.contains token)

/-- Embeds `split_candidate_segments`: each line, then the line split on each
single-character delimiter it contains, then on each spaced-dash separator it
contains. -/
def splitCandidateSegments (text : List Char) : List (List Char) :=
  (splitOnChar '\n' text).flatMap (fun line =>
    line ::
      ((['|', '/', '•', '·'].filter (fun d => line.contains d)).flatMap
        (fun d => splitOnChar d line) ++
       (([ls " - ", ls " – ", ls " — "].filter
          (fun sep => containsSub line sep)).flatMap
        (fun sep => splitOnSub sep line))))

/-- Embeds `contains_author_like_segment`. -/
def containsAuthorLikeSegment (text : List Char) : Bool :=
  if looksLikeAuthorName text then true
  else (splitCandidateSegments text).any looksLikeAuthorName

/-- The month vocabulary shared by `looks_like_datetime_segment` and
`looks_like_live_timestamp_segment` (the two source arrays are identical). -/
def MONTHS : List (List Char) :=
  [ls "jan", ls "feb", ls "mar", ls "apr", ls "may", ls "jun", ls "jul",
   ls "aug", ls "sep", ls "sept", ls "oct", ls "nov", ls "dec",
   ls "january", ls "february", ls "march", ls "april", ls "june",
   ls "july", ls "august", ls "september", ls "october", ls "november",
   ls "december"]

/-- Embeds `looks_like_datetime_segment`. -/
def looksLikeDatetimeSegment (segment : List Char) : Bool :=
  if (toLowerStr (trimStr segment)).isEmpty then false
  else if containsSub (toLowerStr (trimStr segment)) (ls "ago") ||
      containsSub (toLowerStr (trimStr segment)) (ls "updated") ||
      containsSub (toLowerStr (trimStr segment)) (ls "yesterday") ||
      containsSub (toLowerStr (trimStr segment)) (ls "today") ||
      ((toLowerStr (trimStr segment)).any isAsciiDigit &&
        (containsSub (toLowerStr (trimStr segment)) (ls "am") ||
         containsSub (toLowerStr (trimStr segment)) (ls "pm") ||
         containsSub (toLowerStr (trimStr segment)) (ls "utc") ||
         containsSub (toLowerStr (trimStr segment)) (ls "gmt") ||
         containsSub (toLowerStr (trimStr segment)) (ls "est") ||
         containsSub (toLowerStr (trimStr segment)) (ls "pst") ||
         containsSub (toLowerStr (trimStr segment)) (ls "cet"))) ||
      ((toLowerStr (trimStr segment)).any isAsciiDigit &&
        MONTHS.any (fun m => containsSub (toLowerStr (trimStr segment)) m))
    then true
  else if (toLowerStr (trimStr segment)).any isAsciiDigit &&
      (toLowerStr (trimStr segment)).contains ':' then true
  else false

/-- The relative-timestamp test of `looks_like_live_timestamp_segment`
(its first `if`): "ago", "updated", "update", "yesterday" or "today". -/
def liveRelativeHit (lower : List Char) : Bool :=
  containsSub lower (ls "ago") || containsSub lower (ls "updated") ||
  containsSub lower (ls "update") || containsSub lower (ls "yesterday") ||
  containsSub lower (ls "today")

/-- The absolute-month test of `looks_like_live_timestamp_segment`. -/
def monthHit (lower : List Char) : Bool :=
  MONTHS.any (fun m => containsSub lower m)

/-- The digit-plus-colon test of `looks_like_live_timestamp_segment`. -/
def liveTimeHit (lower : List Char) : Bool :=
  lower.contains ':' && lower.any isAsciiDigit

/-- The digit-plus-meridiem/timezone test of
`looks_like_live_timestamp_segment`. -/
def liveMeridiemHit (lower : List Char) : Bool :=
  lower.any isAsciiDigit &&
    (containsSub lower (ls "am") || containsSub lower (ls "pm") ||
     containsSub lower (ls "a.m") || containsSub lower (ls "p.m") ||
     containsSub lower (ls "utc") || containsSub lower (ls "gmt") ||
     containsSub lower (ls "est") || containsSub lower (ls "pst") ||
     containsSub lower (ls "cet"))

/-- Embeds `looks_like_live_timestamp_segment`: relative phrases first, then
the absolute-month bailout, then digit+colon and digit+meridiem/timezone. -/
def looksLikeLiveTimestampSegment (segment : List Char) : Bool :=
  if (toLowerStr (trimStr segment)).isEmpty then false
  else if liveRelativeHit (toLowerStr (trimStr segment)) then true
  else if monthHit (toLowerStr (trimStr segment)) then false
  else if liveTimeHit (toLowerStr (trimStr segment)) then true
  else if liveMeridiemHit (toLowerStr (trimStr segment)) then true
  else false

/-- The 10-entry `EXACT_AGENCIES` table of `looks_like_org_credit`. -/
def EXACT_AGENCIES : List (List Char) :=
  [ls "afp", ls "ap", ls "associated press", ls "reuters", ls "bloomberg",
   ls "press association", ls "kyodo", ls "ansa", ls "dpa", ls "upi"]

/-- The 21-entry keyword vocabulary of `looks_like_org_credit`. -/
def ORG_KEYWORDS : List (List Char) :=
  [ls "staff", ls "news", ls "newsroom", ls "desk", ls "team", ls "press",
   ls "service", ls "bureau", ls "foreign", ls "reporter", ls "reporters",
   ls "developers", ls "android", ls "buzzfeed", ls "wire", ls "agency",
   ls "agencies", ls "telegraph", ls "our", ls "editors", ls "view"]

/-- Embeds `looks_like_org_credit`. -/
def looksLikeOrgCredit (text : List Char) : Bool :=
  if containsAuthorLikeSegment text then false
  else if (toLowerStr (normalizeWhitespace text)).isEmpty then false
  else if EXACT_AGENCIES.contains (toLowerStr (normalizeWhitespace text)) then
    true
  else
    decide (2 ≤ ((splitWhitespace (toLowerStr (normalizeWhitespace text))).filter
      (fun token => ORG_KEYWORDS.contains token)).length)

/-- One probe of the `strip_trailing_datetime_clause` loop: the last
occurrence of `sep` in `lower` whose following text is a datetime segment
(`rfind` plus the `looks_like_datetime_segment` test on the tail). -/
def sepHit (lower sep : List Char) : Option Nat :=
  match rfindSub lower sep with
  | some pos =>
    if looksLikeDatetimeSegment (trimStr (lower.drop (pos + sep.length))) then
      some pos
    else none
  | none => none

/-- The separator list of `strip_trailing_datetime_clause`, in source order. -/
def SEPS : List (List Char) :=
  [ls " | ", ls " - ", ls " – ", ls " — ", ls " · "]

/-- The separator loop of `strip_trailing_datetime_clause`: the first
separator (in list order) whose last occurrence is followed by a datetime
segment wins, and the original text is sliced at the byte index that
occurrence has in the lowercased copy (`none` models the Rust slice panic
when that byte index is not a character boundary of the original). -/
def stripLoop (text lower : List Char) : List (List Char) → Option (List Char)
  | [] => some text
  | sep :: rest =>
    match sepHit lower sep with
    | some pos =>
      (takeBytesExact text (byteLen (lower.take pos))).map
        (trimEndWith isWhitespaceChar)
    | none => stripLoop text lower rest

/-- Embeds `strip_trailing_datetime_clause`. -/
def stripTrailingDatetimeClause (text : List Char) (allowStrip : Bool) :
    Option (List Char) :=
  if !allowStrip then some text
  else stripLoop text (toLowerStr text) SEPS

/-- The best (right-most) qualifying truncation point over all separators
jointly, by position of the last qualifying occurrence of any separator. -/
def bestJointHit (text : List Char) : Option Nat :=
  (SEPS.filterMap (fun sep => sepHit (toLowerStr text) sep)).foldl
    (fun acc p =>
      some (match acc with
            | none => p
            | some q => max q p))
    none

/-- Modelled from the spec's words for the refinement comparison of claim C2
(spec section 4.4 step 5): "find the last occurrence of any of
`{" | " " - " " – " " — " " · "}` such that the text after it is a datetime
segment; truncate before that separator" — over all separators jointly. -/
def stripDatetimeSpecJoint (text : List Char) (allowStrip : Bool) :
    Option (List Char) :=
  if !allowStrip then some text
  else
    match bestJointHit text with
    | some pos =>
      (takeBytesExact text (byteLen ((toLowerStr text).take pos))).map
        (trimEndWith isWhitespaceChar)
    | none => some text

/-- Embeds `remove_timestamp_lines`: `none` means no line was removed (the
Rust function's `None`), `some` is the filtered text. -/
def removeTimestampLines (text : List Char) : Option (List Char) :=
  if ((splitOnChar '\n' text).filter
      (fun line => (trimStr line).isEmpty ||
        !looksLikeLiveTimestampSegment (trimStr line))).length =
      (splitOnChar '\n' text).length then none
  else
    some (trimEndWith (fun c => c == '\n')
      (List.intercalate (ls "\n")
        ((splitOnChar '\n' text).filter
          (fun line => (trimStr line).isEmpty ||
            !looksLikeLiveTimestampSegment (trimStr line)))))

/-- Embeds `remove_social_handle_lines`: `none` means no line was removed. -/
def removeSocialHandleLines (text : List Char) : Option (List Char) :=
  if ((splitOnChar '\n' text).filter
      (fun line => !looksLikeSocialHandle line)).length =
      (splitOnChar '\n' text).length then none
  else
    some (trimEndWith (fun c => c == '\n')
      (List.intercalate (ls "\n")
        ((splitOnChar '\n' text).filter
          (fun line => !looksLikeSocialHandle line))))

/-- The per-line location test of `looks_like_navigation_menu`. -/
def looksLikeLocationLine (line : List Char) : Bool :=
  if (trimStr line).isEmpty || 30 < byteLen (trimStr line) ||
      byteLen (trimStr line) < 3 then false
  else if (splitWhitespace (trimStr line)).isEmpty ||
      3 < (splitWhitespace (trimStr line)).length then false
  else if !(splitWhitespace (trimStr line)).all (fun word =>
      !(word.filter isAlphabeticChar).isEmpty &&
        (word.filter isAlphabeticChar).all isUppercaseChar) then false
  else if containsSub (toLowerStr (trimStr line)) (ls "by") ||
      containsSub (toLowerStr (trimStr line)) (ls "staff") ||
      containsSub (toLowerStr (trimStr line)) (ls "editor") then false
  else true

/-- Embeds `looks_like_navigation_menu`. -/
def looksLikeNavigationMenu (text : List Char) : Bool :=
  if 2 ≤ (text.filter (fun c => c == '|')).length then true
  else
    if 2 ≤ (((splitOnChar '\n' text).map trimStr).filter
        (fun l => !l.isEmpty)).length then
      (((splitOnChar '\n' text).map trimStr).filter
        (fun l => !l.isEmpty)).all looksLikeLocationLine &&
      2 ≤ (((splitOnChar '\n' text).map trimStr).filter
        (fun l => !l.isEmpty)).length
    else false

/-- Worker for `collapse_blank_lines_preserve_indent`, carrying the pending
first blank line's literal content and whether a line has been written. -/
def collapseGo (pending : Option (List Char)) (firstWritten : Bool) :
    List (List Char) → List Char
  | [] => []
  | line :: rest =>
    if (trimStr line).isEmpty then
      if pending.isNone && !line.isEmpty then collapseGo (some line) firstWritten rest
      else collapseGo pending firstWritten rest
    else
      (if firstWritten then [(Char.ofNat 10)] else []) ++
        (match pending with
         | some indent => indent
         | none => []) ++ line ++ collapseGo none true rest

/-- Embeds `collapse_blank_lines_preserve_indent`. -/
def collapseBlankLinesPreserveIndent (text : List Char) : List Char :=
  collapseGo none false (splitOnChar '\n' text)

/-- The trailing separator/punctuation set stripped by step 2 of
`clean_byline_text_with_reason`. -/
def isPunctTrail (c : Char) : Bool :=
  c == '-' || c == '–' || c == '—' || c == '|' || c == '•' || c == ':' ||
  c == ';' || c == ',' || c == '.'

/-- Embeds the `CleanBylineOutcome` enum. -/
inductive CleanBylineOutcome where
  | Accepted : List Char → CleanBylineOutcome
  | DroppedOrgCredit : CleanBylineOutcome
  | Dropped : CleanBylineOutcome
deriving DecidableEq, BEq, Repr

/-- Steps 1-2 of `clean_byline_text_with_reason`: soft-space trim, then the
trailing separator/punctuation trim. -/
def cleanPrepared (text : List Char) : List Char :=
  trimStr (trimEndWith isPunctTrail
    (trimEndWith isWhitespaceChar (trimSoftSpace (trimStr text))))

/-- Step 3 of `clean_byline_text_with_reason`: CRLF normalization and blank
line collapsing applied to the prepared text. -/
def canonicalOf (text : List Char) : List Char :=
  collapseBlankLinesPreserveIndent
    (List.intercalate (ls "\n") (splitOnSub (ls "\r\n") (cleanPrepared text)))

/-- Steps 8-14 of `clean_byline_text_with_reason` (the checks after line
filtering, ending in `Accepted`). -/
def cleanFinal (canonical : List Char) : CleanBylineOutcome :=
  if startsWithL (toLowerStr (trimStartStr canonical)) (ls "posted by") ||
      startsWithL (toLowerStr (trimStartStr canonical)) (ls "promoted by") then
    CleanBylineOutcome.DroppedOrgCredit
  else if looksLikeNavigationMenu canonical then CleanBylineOutcome.Dropped
  else if (normalizeWhitespace canonical).isEmpty then CleanBylineOutcome.Dropped
  else if looksLikeSocialHandle (normalizeWhitespace canonical) then
    CleanBylineOutcome.Dropped
  else if !(normalizeWhitespace canonical).any isAlphabeticChar then
    CleanBylineOutcome.Dropped
  else if looksLikeOrgCredit canonical then CleanBylineOutcome.DroppedOrgCredit
  else CleanBylineOutcome.Accepted canonical

/-- Step 7 of `clean_byline_text_with_reason`: social-handle line removal. -/
def socialStage (canonical : List Char) : CleanBylineOutcome :=
  match removeSocialHandleLines canonical with
  | some filtered =>
    if (trimStr filtered).isEmpty then CleanBylineOutcome.Dropped
    else cleanFinal filtered
  | none => cleanFinal canonical

/-- Step 6 of `clean_byline_text_with_reason`: timestamp-line removal, which
runs only when an author-like segment was identified. -/
def timestampStage (canonical : List Char) (hasAuthor : Bool) :
    CleanBylineOutcome :=
  if hasAuthor then
    match removeTimestampLines canonical with
    | some filtered =>
      if (trimStr filtered).isEmpty then CleanBylineOutcome.Dropped
      else socialStage filtered
    | none => socialStage canonical
  else socialStage canonical

/-- Embeds `clean_byline_text_with_reason`; `none` models a panic (reachable
only through the slice in `strip_trailing_datetime_clause`). -/
def cleanBylineTextWithReason (text : List Char) : Option CleanBylineOutcome :=
  if (trimSoftSpace (trimStr text)).isEmpty then some CleanBylineOutcome.Dropped
  else if (cleanPrepared text).isEmpty then some CleanBylineOutcome.Dropped
  else
    (stripTrailingDatetimeClause (canonicalOf text)
        (containsAuthorLikeSegment (canonicalOf text))).map
      (fun c => timestampStage c (containsAuthorLikeSegment (canonicalOf text)))

/-- The separator set trimmed around the site-name occurrence in
`is_byline_redundant_with_site_name`. -/
def isSepOrWs (c : Char) : Bool :=
  isWhitespaceChar c || c == ':' || c == '-' || c == '–' || c == '—' ||
  c == '|' || c == '•'

/-- Embeds `is_byline_redundant_with_site_name`. -/
def isBylineRedundantWithSiteName (byline site : List Char) : Bool :=
  if byteLen (toLowerStr (normalizeWhitespace byline)) < 3 then false
  else
    match findSub (toLowerStr (normalizeWhitespace site))
        (toLowerStr (normalizeWhitespace byline)) with
    | some pos =>
      if endsWithL (trimEndWith isSepOrWs
          ((toLowerStr (normalizeWhitespace site)).take pos)) (ls "by") then true
      else if startsWithL
          (((toLowerStr (normalizeWhitespace site)).drop
            (pos + (toLowerStr (normalizeWhitespace byline)).length)).dropWhile
              isSepOrWs)
          (ls "by") then true
      else false
    | none => false

/-- Claim C1 (code bug): `clean_byline` is not total.  On an author-like
segment followed by the Kelvin sign U+212A and `" | 1:2"`, the datetime
stripper finds `" | "` at byte index 12 of the lowercased copy (the Kelvin
sign lowercases to the one-byte `k`), but byte 12 of the original text falls
inside the three-byte Kelvin sign, so the Rust slice `&text[..idx]` panics;
the model returns `none` there. -/
theorem clean_byline_kelvin_panic :
    cleanBylineTextWithReason (ls "John Smith K | 1:2") = none := by
  decide

/-- Claim C6: the social-handle line is removed, the absolute date line is
kept, and the accepted value is the post-handle-removal text with its
internal newlines intact (not the whitespace-normalized copy). -/
theorem clean_byline_handle_line_removed :
    cleanBylineTextWithReason (ls "By John Smith\n@johnsmith\nJanuary 1, 2020") =
      some (CleanBylineOutcome.Accepted (ls "By John Smith\nJanuary 1, 2020")) := by
  decide

/-- Claim C7: an organization credit and an ordinary rejection come back as
the two distinct non-accepting constructors of the closed three-way
`CleanBylineOutcome`, which are not equal to each other. -/
theorem clean_byline_outcome_distinction :
    cleanBylineTextWithReason (ls "Our Foreign Staff") =
      some CleanBylineOutcome.DroppedOrgCredit ∧
    cleanBylineTextWithReason (ls "Follow @example") =
      some CleanBylineOutcome.Dropped ∧
    (CleanBylineOutcome.DroppedOrgCredit == CleanBylineOutcome.Dropped) = false := by
  refine ⟨by decide, by decide, by decide⟩

/-- Claim C5: with no author-like segment the datetime-truncation stage is
the identity (its `allow_strip` argument is exactly `has_author_segment`),
the timestamp-line-removal stage is skipped (it is guarded by
`has_author_segment`), and the bare-dates example string passes through
`clean_byline` unchanged. -/
theorem no_author_stages_noop (t : List Char)
    (h : containsAuthorLikeSegment t = false) :
    stripTrailingDatetimeClause t (containsAuthorLikeSegment t) = some t ∧
    timestampStage t (containsAuthorLikeSegment t) = socialStage t ∧
    cleanBylineTextWithReason
        (ls "April 28, 2019 at 6:01 am Updated April 29, 2019 at 3:33 pm") =
      some (CleanBylineOutcome.Accepted
        (ls "April 28, 2019 at 6:01 am Updated April 29, 2019 at 3:33 pm")) := by
  refine ⟨?_, ?_, by decide⟩
  · rw [h]; simp [stripTrailingDatetimeClause]
  · rw [h]; simp [timestampStage]

/-- Witness for C5 at the claim's own example input, which has no
author-like segment. -/
theorem no_author_stages_noop_witness :
    stripTrailingDatetimeClause
        (ls "April 28, 2019 at 6:01 am Updated April 29, 2019 at 3:33 pm")
        (containsAuthorLikeSegment
          (ls "April 28, 2019 at 6:01 am Updated April 29, 2019 at 3:33 pm")) =
      some (ls "April 28, 2019 at 6:01 am Updated April 29, 2019 at 3:33 pm") ∧
    timestampStage
        (ls "April 28, 2019 at 6:01 am Updated April 29, 2019 at 3:33 pm")
        (containsAuthorLikeSegment
          (ls "April 28, 2019 at 6:01 am Updated April 29, 2019 at 3:33 pm")) =
      socialStage
        (ls "April 28, 2019 at 6:01 am Updated April 29, 2019 at 3:33 pm") ∧
    cleanBylineTextWithReason
        (ls "April 28, 2019 at 6:01 am Updated April 29, 2019 at 3:33 pm") =
      some (CleanBylineOutcome.Accepted
        (ls "April 28, 2019 at 6:01 am Updated April 29, 2019 at 3:33 pm")) :=
  no_author_stages_noop
    (ls "April 28, 2019 at 6:01 am Updated April 29, 2019 at 3:33 pm")
    (by decide)

/-- Claim C4: whenever the whole text or any candidate segment passes
`looks_like_author_name`, `looks_like_org_credit` returns false. -/
theorem org_credit_false_of_author_segment (t : List Char)
    (h : looksLikeAuthorName t = true ∨
      ∃ s ∈ splitCandidateSegments t, looksLikeAuthorName s = true) :
    looksLikeOrgCredit t = false := by
  have hc : containsAuthorLikeSegment t = true := by
    unfold containsAuthorLikeSegment
    rcases h with h | ⟨s, hs, ha⟩
    · simp [h]
    · by_cases hA : looksLikeAuthorName t = true
      · simp [hA]
      · simp only [Bool.not_eq_true] at hA
        simp only [hA, Bool.false_eq_true, if_false]
        exact List.any_eq_true.mpr ⟨s, hs, ha⟩
  simp [looksLikeOrgCredit, hc]

/-- Witness for C4 at an author-like input. -/
theorem org_credit_false_of_author_segment_witness :
    looksLikeOrgCredit (ls "John Smith") = false :=
  org_credit_false_of_author_segment (ls "John Smith") (Or.inl (by decide))

/-- Counterexample for claim C3: `looks_like_live_timestamp_segment` fires
on "Updated March 11, 2015" even though an absolute month name is present,
because the relative-word test runs before the month bailout. -/
theorem live_timestamp_updated_month_cex :
    looksLikeLiveTimestampSegment (ls "Updated March 11, 2015") = true ∧
    monthHit (toLowerStr (trimStr (ls "Updated March 11, 2015"))) = true := by
  refine ⟨by decide, by decide⟩

/-- Claim C3 as amended: the month bailout of
`looks_like_live_timestamp_segment` suppresses the classifier only when no
relative word ("ago"/"updated"/"update"/"yesterday"/"today") is present;
relative phrases always fire, and digit+colon or digit+meridiem/timezone
fire when no month name is present. -/
theorem live_timestamp_classification (s : List Char) :
    (monthHit (toLowerStr (trimStr s)) = true →
      liveRelativeHit (toLowerStr (trimStr s)) = false →
      looksLikeLiveTimestampSegment s = false) ∧
    (liveRelativeHit (toLowerStr (trimStr s)) = true →
      looksLikeLiveTimestampSegment s = true) ∧
    (monthHit (toLowerStr (trimStr s)) = false →
      liveTimeHit (toLowerStr (trimStr s)) = true →
      looksLikeLiveTimestampSegment s = true) ∧
    (monthHit (toLowerStr (trimStr s)) = false →
      liveMeridiemHit (toLowerStr (trimStr s)) = true →
      looksLikeLiveTimestampSegment s = true) := by
  have hne : ∀ {f : List Char → Bool}, f [] = false →
      f (toLowerStr (trimStr s)) = true →
      (toLowerStr (trimStr s)).isEmpty = false := by
    intro f hf h
    cases hl : toLowerStr (trimStr s) with
    | nil => rw [hl] at h; rw [hf] at h; exact absurd h (by simp)
    | cons a as_ => rfl
  refine ⟨?_, ?_, ?_, ?_⟩
  · intro hm hr
    have he := hne (by decide) hm
    simp [looksLikeLiveTimestampSegment, he, hr, hm]
  · intro hr
    have he := hne (by decide) hr
    simp [looksLikeLiveTimestampSegment, he, hr]
  · intro hm ht
    have he := hne (by decide) ht
    by_cases hr : liveRelativeHit (toLowerStr (trimStr s)) = true
    · simp [looksLikeLiveTimestampSegment, he, hr]
    · simp only [Bool.not_eq_true] at hr
      simp [looksLikeLiveTimestampSegment, he, hr, hm, ht]
  · intro hm hmer
    have he := hne (by decide) hmer
    by_cases hr : liveRelativeHit (toLowerStr (trimStr s)) = true
    · simp [looksLikeLiveTimestampSegment, he, hr]
    · simp only [Bool.not_eq_true] at hr
      by_cases ht : liveTimeHit (toLowerStr (trimStr s)) = true
      · simp [looksLikeLiveTimestampSegment, he, hr, hm, ht]
      · simp only [Bool.not_eq_true] at ht
        simp [looksLikeLiveTimestampSegment, he, hr, hm, ht, hmer]

/-- Witness for C3 at concrete inputs: an absolute date without relative
words is preserved, a relative phrase fires. -/
theorem live_timestamp_classification_witness :
    looksLikeLiveTimestampSegment (ls "March 11, 2015 3:46 PM") = false ∧
    looksLikeLiveTimestampSegment (ls "1 day ago") = true :=
  ⟨(live_timestamp_classification (ls "March 11, 2015 3:46 PM")).1
      (by decide) (by decide),
   (live_timestamp_classification (ls "1 day ago")).2.1 (by decide)⟩

theorem stripLoop_skip (text lower sep : List Char) (rest : List (List Char))
    (h : sepHit lower sep = none) :
    stripLoop text lower (sep :: rest) = stripLoop text lower rest := by
  simp [stripLoop, h]

theorem stripLoop_first_hit (seps : List (List Char)) (text lower : List Char)
    (i pos : Nat) (hi : i < seps.length)
    (hprev : ∀ j, (hj : j < i) →
      sepHit lower (seps.get ⟨j, Nat.lt_trans hj hi⟩) = none)
    (hhit : sepHit lower (seps.get ⟨i, hi⟩) = some pos) :
    stripLoop text lower seps =
      (takeBytesExact text (byteLen (lower.take pos))).map
        (trimEndWith isWhitespaceChar) := by
  induction seps generalizing i with
  | nil => exact absurd hi (Nat.not_lt_zero i)
  | cons sep rest ih =>
    cases i with
    | zero =>
      have hs : sepHit lower sep = some pos := hhit
      simp [stripLoop, hs]
    | succ i2 =>
      have h0 : sepHit lower sep = none := hprev 0 (Nat.succ_pos i2)
      rw [stripLoop_skip text lower sep rest h0]
      exact ih i2 (Nat.lt_of_succ_lt_succ hi)
        (fun j hj => hprev (j + 1) (Nat.succ_lt_succ hj)) hhit

/-- Claim C2 as amended: `strip_trailing_datetime_clause` tries the
separators in the fixed source order `" | "`, `" - "`, `" – "`, `" — "`,
`" · "`; for each it probes only the last occurrence of that separator, and
the first separator in that order whose last occurrence is followed by a
datetime segment decides the truncation point (not the right-most qualifying
occurrence over all separators jointly). -/
theorem strip_datetime_first_separator_hit (text : List Char) (i pos : Nat)
    (hi : i < SEPS.length)
    (hprev : ∀ j, (hj : j < i) →
      sepHit (toLowerStr text) (SEPS.get ⟨j, Nat.lt_trans hj hi⟩) = none)
    (hhit : sepHit (toLowerStr text) (SEPS.get ⟨i, hi⟩) = some pos) :
    stripTrailingDatetimeClause text true =
      (takeBytesExact text (byteLen ((toLowerStr text).take pos))).map
        (trimEndWith isWhitespaceChar) := by
  have hrw : stripTrailingDatetimeClause text true =
      stripLoop text (toLowerStr text) SEPS := rfl
  rw [hrw]
  exact stripLoop_first_hit SEPS text (toLowerStr text) i pos hi hprev hhit

/-- Witness for C2's amended claim: on the Rust test byline
"Dan Goodin - Apr 16, 2015 8:02 pm UTC", `" | "` never qualifies and the
last `" - "` occurrence (position 10) is followed by a datetime segment, so
the text is truncated there. -/
theorem strip_datetime_first_separator_hit_witness :
    stripTrailingDatetimeClause (ls "Dan Goodin - Apr 16, 2015 8:02 pm UTC")
        true =
      (takeBytesExact (ls "Dan Goodin - Apr 16, 2015 8:02 pm UTC")
          (byteLen
            ((toLowerStr (ls "Dan Goodin - Apr 16, 2015 8:02 pm UTC")).take
              10))).map
        (trimEndWith isWhitespaceChar) :=
  strip_datetime_first_separator_hit
    (ls "Dan Goodin - Apr 16, 2015 8:02 pm UTC") 1 10 (by decide)
    (fun j hj => by
      have hj0 : j = 0 := Nat.lt_one_iff.mp hj
      subst hj0
      exact (by decide :
        sepHit (toLowerStr (ls "Dan Goodin - Apr 16, 2015 8:02 pm UTC"))
          (ls " | ") = none))
    (by decide)

/-- Counterexample for claim C2: on "John Smith | 1:2 - 3:4" the code
truncates at the earlier `" | "` (its fixed-order first qualifying
separator), while the joint last-occurrence rule the claim states picks the
later `" - "` and keeps " | 1:2". -/
theorem strip_datetime_order_cex :
    stripTrailingDatetimeClause (ls "John Smith | 1:2 - 3:4") true =
      some (ls "John Smith") ∧
    stripDatetimeSpecJoint (ls "John Smith | 1:2 - 3:4") true =
      some (ls "John Smith | 1:2") ∧
    ((ls "John Smith") == (ls "John Smith | 1:2")) = false := by
  refine ⟨by decide, by decide, by decide⟩

theorem findSub_isHit (l needle : List Char) (p : Nat)
    (hf : findSub l needle = some p) :
    startsWithL (l.drop p) needle = true := by
  unfold findSub at hf
  cases hlist : (List.range (l.length + 1)).filter
      (fun i => startsWithL (l.drop i) needle) with
  | nil => rw [hlist] at hf; exact absurd hf (by simp)
  | cons a t =>
    rw [hlist] at hf
    have hap : a = p := by simpa using hf
    subst hap
    have ha : a ∈ (List.range (l.length + 1)).filter
        (fun i => startsWithL (l.drop i) needle) := by
      rw [hlist]; exact List.mem_cons_self a t
    exact (List.mem_filter.mp ha).2

theorem startsWithL_append (l p : List Char) (h : startsWithL l p = true) :
    ∃ r, l = p ++ r := by
  induction p generalizing l with
  | nil => exact ⟨l, rfl⟩
  | cons b bs ih =>
    cases l with
    | nil => exact absurd h (by simp [startsWithL])
    | cons a as_ =>
      simp only [startsWithL, Bool.and_eq_true, beq_iff_eq] at h
      obtain ⟨hab, h2⟩ := h
      obtain ⟨r, hr⟩ := ih as_ h2
      exact ⟨r, by rw [hab, hr]; rfl⟩

/-- Claim C8: the redundancy check returns false whenever the normalized
byline is shorter than three bytes, and returns true only when the
normalized byline occurs inside the normalized site name with "by" adjacent
on one side after separator trimming — never on a bare substring match; the
two example pairs behave as the claim states. -/
theorem byline_redundancy_characterization :
    (∀ b s, byteLen (toLowerStr (normalizeWhitespace b)) < 3 →
      isBylineRedundantWithSiteName b s = false) ∧
    (∀ b s, isBylineRedundantWithSiteName b s = true →
      3 ≤ byteLen (toLowerStr (normalizeWhitespace b)) ∧
      ∃ p q, toLowerStr (normalizeWhitespace s) =
          p ++ toLowerStr (normalizeWhitespace b) ++ q ∧
        (endsWithL (trimEndWith isSepOrWs p) (ls "by") = true ∨
         startsWithL (q.dropWhile isSepOrWs) (ls "by") = true)) ∧
    isBylineRedundantWithSiteName (ls "Joe Wee")
      (ls "SIMPLYFOUND.COM | BY: Joe Wee") = true ∧
    isBylineRedundantWithSiteName (ls "Nicolas Perriault") (ls "Code") = false := by
  refine ⟨?_, ?_, by decide, by decide⟩
  · intro b s h
    simp [isBylineRedundantWithSiteName, h]
  · intro b s h
    unfold isBylineRedundantWithSiteName at h
    split at h
    · exact absurd h (by simp)
    · rename_i hlen
      constructor
      · exact Nat.not_lt.mp hlen
      · split at h
        · rename_i pos hfind
          have hstart := findSub_isHit _ _ _ hfind
          obtain ⟨r, hr⟩ := startsWithL_append _ _ hstart
          have hsplit : toLowerStr (normalizeWhitespace s) =
              (toLowerStr (normalizeWhitespace s)).take pos ++
                toLowerStr (normalizeWhitespace b) ++ r := by
            conv_lhs => rw [← List.take_append_drop pos
              (toLowerStr (normalizeWhitespace s))]
            rw [hr, List.append_assoc]
          have hq : ((toLowerStr (normalizeWhitespace s)).drop
              (pos + (toLowerStr (normalizeWhitespace b)).length)) = r := by
            rw [← List.drop_drop, hr, List.drop_left]
          refine ⟨(toLowerStr (normalizeWhitespace s)).take pos, r, hsplit, ?_⟩
          split at h
          · rename_i hpre
            exact Or.inl hpre
          · split at h
            · rename_i hsuf
              rw [hq] at hsuf
              exact Or.inr hsuf
            · exact absurd h (by simp)
        · exact absurd h (by simp)

/-- Witness for C8: a two-byte byline is never redundant. -/
theorem byline_redundancy_characterization_witness :
    isBylineRedundantWithSiteName (ls "ab") (ls "xx ab yy") = false :=
  byline_redundancy_characterization.1 (ls "ab") (ls "xx ab yy") (by decide)

theorem mem_normalizeWhitespace (l : List Char) (c : Char)
    (hc : c ∈ normalizeWhitespace l) : c = ' ' ∨ c ∈ l := by
  induction l with
  | nil => exact absurd hc (by simp [normalizeWhitespace])
  | cons a rest ih =>
    by_cases ha : isWhitespaceChar a = true
    · cases rest with
      | nil =>
        have h1 : normalizeWhitespace [a] = [' '] := by
          simp [normalizeWhitespace, ha]
        rw [h1] at hc
        exact Or.inl (List.mem_singleton.mp hc)
      | cons c2 rest2 =>
        by_cases hc2 : isWhitespaceChar c2 = true
        · have h1 : normalizeWhitespace (a :: c2 :: rest2) =
              normalizeWhitespace (c2 :: rest2) := by
            simp [normalizeWhitespace, ha, hc2]
          rw [h1] at hc
          rcases ih hc with h | h
          · exact Or.inl h
          · exact Or.inr (List.mem_cons_of_mem a h)
        · simp only [Bool.not_eq_true] at hc2
          have h1 : normalizeWhitespace (a :: c2 :: rest2) =
              ' ' :: normalizeWhitespace (c2 :: rest2) := by
            simp [normalizeWhitespace, ha, hc2]
          rw [h1] at hc
          rcases List.mem_cons.mp hc with h | h
          · exact Or.inl h
          · rcases ih h with h2 | h2
            · exact Or.inl h2
            · exact Or.inr (List.mem_cons_of_mem a h2)
    · simp only [Bool.not_eq_true] at ha
      rw [normalizeWhitespace_cons_nonWs a rest ha] at hc
      rcases List.mem_cons.mp hc with h | h
      · exact Or.inr (h ▸ List.mem_cons_self a rest)
      · rcases ih h with h2 | h2
        · exact Or.inl h2
        · exact Or.inr (List.mem_cons_of_mem a h2)

theorem norm_any_alpha (l : List Char)
    (h : (normalizeWhitespace l).any isAlphabeticChar = true) :
    l.any isAlphabeticChar = true := by
  obtain ⟨c, hcmem, hca⟩ := List.any_eq_true.mp h
  rcases mem_normalizeWhitespace l c hcmem with h1 | h1
  · subst h1; exact absurd hca (by decide)
  · exact List.any_eq_true.mpr ⟨c, h1, hca⟩

theorem cleanFinal_accepted (c txt : List Char)
    (h : cleanFinal c = CleanBylineOutcome.Accepted txt) :
    (normalizeWhitespace txt).any isAlphabeticChar = true := by
  unfold cleanFinal at h
  split at h
  · exact absurd h (by simp)
  · split at h
    · exact absurd h (by simp)
    · split at h
      · exact absurd h (by simp)
      · split at h
        · exact absurd h (by simp)
        · split at h
          · exact absurd h (by simp)
          · split at h
            · exact absurd h (by simp)
            · rename_i h1 h2 h3 h4 halpha h5
              have htxt : txt = c := by
                have := CleanBylineOutcome.Accepted.inj h
                exact this.symm
              subst htxt
              simpa using halpha

theorem socialStage_accepted (c txt : List Char)
    (h : socialStage c = CleanBylineOutcome.Accepted txt) :
    (normalizeWhitespace txt).any isAlphabeticChar = true := by
  unfold socialStage at h
  split at h
  · rename_i filtered hfil
    split at h
    · exact absurd h (by simp)
    · exact cleanFinal_accepted filtered txt h
  · exact cleanFinal_accepted c txt h

theorem timestampStage_accepted (c : List Char) (hasAuthor : Bool)
    (txt : List Char)
    (h : timestampStage c hasAuthor = CleanBylineOutcome.Accepted txt) :
    (normalizeWhitespace txt).any isAlphabeticChar = true := by
  unfold timestampStage at h
  split at h
  · split at h
    · rename_i filtered hfil
      split at h
      · exact absurd h (by simp)
      · exact socialStage_accepted filtered txt h
    · exact socialStage_accepted c txt h
  · exact socialStage_accepted c txt h

/-- Claim C10: every accepted byline is non-empty and contains an alphabetic
character: the checks made on the whitespace-normalized copy carry over to
the accepted, un-normalized value. -/
theorem accepted_nonempty_alphabetic (t txt : List Char)
    (h : cleanBylineTextWithReason t = some (CleanBylineOutcome.Accepted txt)) :
    txt.isEmpty = false ∧ txt.any isAlphabeticChar = true := by
  unfold cleanBylineTextWithReason at h
  split at h
  · exact absurd h (by simp)
  · split at h
    · exact absurd h (by simp)
    · rw [Option.map_eq_some'] at h
      obtain ⟨c, hsome, hf⟩ := h
      have halpha := timestampStage_accepted c
        (containsAuthorLikeSegment (canonicalOf t)) txt hf
      have hany : txt.any isAlphabeticChar = true := norm_any_alpha txt halpha
      refine ⟨?_, hany⟩
      cases txt with
      | nil => exact absurd hany (by simp)
      | cons a rest => rfl

/-- Witness for C10 at a concrete accepted byline. -/
theorem accepted_nonempty_alphabetic_witness :
    (ls "By Alice Smith").isEmpty = false ∧
    (ls "By Alice Smith").any isAlphabeticChar = true :=
  accepted_nonempty_alphabetic (ls "By Alice Smith") (ls "By Alice Smith")
    (by decide)

end ReadabilityRs
